import Mathlib

/-!
# zion-meter, `pkg/sdk/account.go`: the transaction lifecycle of an `Account`

A shallow embedding of the nonce counter, the transaction builder, the
broadcaster and the confirmation loop of `pkg/sdk/account.go`.

* The mutable part of an `Account` is its `nonce` field.  It is carried in a
  `World`, next to the chronological record of every call the code makes to
  the outside (the RPC peer, `time.Sleep`, the log sink).
* The remote peer is a script: for each RPC method, the answer it gives to
  the `i`-th call of that method (counting from 0) on the given arguments.
  All theorems quantify over the script, so they cover every peer.
* go-ethereum functions the code calls (`types.SignTx`, `Transaction.Hash`,
  `Hash.Hex`, `bind.NewKeyedTransactor`) are parameters, gathered in `Lib`.
* An `error` value of Go is its message; a `(T, error)` result whose value
  is meaningless on failure is an `Except String T`, and a `(common.Hash,
  error)` result is kept as a pair because the code chooses which hash
  accompanies the error.
* `uint64` values are naturals below `2^64`, with explicit reduction.
* The endless `for` loop of `waitTransaction` takes a bound on its number
  of iterations and yields `none` when the bound is exhausted.
-/

namespace Sdk

/-! ## Data model -/

/-- The modulus of Go's `uint64`. -/
def uint64Mod : Nat := 2 ^ 64

/-- A `common.Address`, as an identifier. -/
abbrev Address := Nat

/-- A `common.Hash`, as an identifier. -/
abbrev Hash := Nat

/-- The zero hash, `common.EmptyHash`. -/
def EmptyHash : Hash := 0

/-- An `*ecdsa.PrivateKey`, as an identifier. -/
abbrev PrivateKey := Nat

/-- The fields of `types.LegacyTx` the builder fills in. -/
structure LegacyTx where
  nonce : Nat
  dest : Option Address
  value : Int
  gas : Nat
  gasPrice : Int
  data : List Nat
  deriving DecidableEq, Repr

/-- A `types.Transaction`: its payload and its signature bytes (empty while unsigned). -/
structure Transaction where
  inner : LegacyTx
  sig : List Nat
  deriving DecidableEq, Repr

/-- The constructor `types.NewTx`: an unsigned transaction around the payload. -/
def NewTx (inner : LegacyTx) : Transaction := ⟨inner, []⟩

/-- The fields of `ethereum.CallMsg`. -/
structure CallMsg where
  sender : Address
  dest : Option Address
  gas : Nat
  gasPrice : Int
  value : Int
  data : List Nat
  deriving DecidableEq, Repr

/-- One entry of `Receipt.Logs`. -/
structure Log where
  address : Address
  topics : List Hash
  data : List Nat
  deriving DecidableEq, Repr

/-- The fields of `types.Receipt` read by `dumpEventLog`. -/
structure Receipt where
  status : Nat
  blockNumber : Nat
  logs : List Log
  deriving DecidableEq, Repr

/-- The fields of `bind.TransactOpts` written by `makeAuth` and `makeDeployAuth`
(`nonce` is a `*big.Int`, `none` for nil). -/
structure TransactOpts where
  sender : Address
  nonce : Option Nat
  gasLimit : Nat
  deriving DecidableEq, Repr

/-- A line handed to the log sink: the format of the call and its arguments. -/
inductive LogLine where
  /-- The line `log.Errorf("failed to call TransactionByHash: %v", err)`. -/
  | pollFailed (err : String)
  /-- The line `log.Infof("txhash %s, block height %d", ...)`. -/
  | txHeight (hashHex : String) (height : Nat)
  /-- The line `log.Infof("eventlog address %s", ...)`. -/
  | eventAddress (addr : Address)
  /-- The line `log.Infof("eventlog data %s", ...)`. -/
  | eventData (data : List Nat)
  /-- The line `log.Infof("eventlog topic[%d] %s", i, topic)`. -/
  | eventTopic (i : Nat) (topic : Hash)
  deriving DecidableEq, Repr

/-- What the code does to the outside, one entry per call. -/
inductive Event where
  /-- A call of `client.SuggestGasPrice`. -/
  | suggestGasPrice
  /-- A call of `client.EstimateGas`. -/
  | estimateGas (msg : CallMsg)
  /-- A call of `client.SendTransaction`. -/
  | sendTransaction (tx : Transaction)
  /-- A call of `time.Sleep`, in seconds. -/
  | sleep (seconds : Nat)
  /-- A call of `client.TransactionByHash`. -/
  | transactionByHash (hash : Hash)
  /-- A call of `rpcClient.Call(raw, "eth_getTransactionReceipt", hex)`. -/
  | getTransactionReceipt (hashHex : String)
  /-- A line written to the log. -/
  | log (line : LogLine)
  deriving DecidableEq, Repr

/-- The scripted remote peer: the answer to the `i`-th call of each method. -/
structure Peer where
  suggestGasPrice : Nat → Except String Int
  estimateGas : Nat → CallMsg → Except String Nat
  sendTransaction : Nat → Transaction → Option String
  transactionByHash : Nat → Hash → Except String Bool
  getTransactionReceipt : Nat → String → Except String Receipt

/-- The go-ethereum functions the code relies on. -/
structure Lib where
  signTx : Transaction → Nat → PrivateKey → Except String Transaction
  txHash : Transaction → Hash
  hashHex : Hash → String
  newKeyedTransactor : PrivateKey → TransactOpts

/-- The fields of `Account` that never change after construction, with the
peer behind `client` and `rpcClient`. -/
structure Account where
  pk : PrivateKey
  address : Address
  signer : Nat
  peer : Peer
  lib : Lib

/-- The mutable state: the `nonce` field and the record of outside calls. -/
structure World where
  nonce : Nat
  trace : List Event
  deriving DecidableEq, Repr

/-- Append one outside call to the record. -/
def World.emit (w : World) (e : Event) : World :=
  { w with trace := w.trace ++ [e] }

/-- Append several outside calls to the record. -/
def World.emitAll (w : World) (es : List Event) : World :=
  { w with trace := w.trace ++ es }

/-- Is the event a call of `SuggestGasPrice`? -/
def Event.isSuggestGasPrice : Event → Bool
  | .suggestGasPrice => true
  | _ => false

/-- Is the event a call of `EstimateGas`? -/
def Event.isEstimateGas : Event → Bool
  | .estimateGas _ => true
  | _ => false

/-- Is the event a call of `SendTransaction`? -/
def Event.isSendTransaction : Event → Bool
  | .sendTransaction _ => true
  | _ => false

/-- Is the event a call of `time.Sleep`? -/
def Event.isSleep : Event → Bool
  | .sleep _ => true
  | _ => false

/-- Is the event a call of `TransactionByHash`? -/
def Event.isTransactionByHash : Event → Bool
  | .transactionByHash _ => true
  | _ => false

/-- Is the event a call of `eth_getTransactionReceipt`? -/
def Event.isGetTransactionReceipt : Event → Bool
  | .getTransactionReceipt _ => true
  | _ => false

/-- How many events of a kind the record holds. -/
def calls (p : Event → Bool) (t : List Event) : Nat := t.countP p

/-! ## The nonce counter -/

/-- The method `Account.Nonce`: the result is the value of `c.nonce` read by
the `return`, and the deferred function then adds one in `uint64`. -/
def Nonce (w : World) : Nat × World :=
  (w.nonce, { w with nonce := (w.nonce + 1) % uint64Mod })

/-- The results of `n` calls of `Nonce` in sequence, in order, and the final state. -/
def nonceCalls : Nat → World → List Nat × World
  | 0, w => ([], w)
  | n + 1, w =>
    let r := Nonce w
    let rest := nonceCalls n r.2
    (r.1 :: rest.1, rest.2)

/-! ## Broadcaster and builder -/

/-- The method `Account.SendTx`. -/
def SendTx (c : Account) (w : World) (signedTx : Transaction) : Option String × World :=
  (c.peer.sendTransaction (calls Event.isSendTransaction w.trace) signedTx,
    w.emit (.sendTransaction signedTx))

/-- The method `Account.makeDeployAuth`. -/
def makeDeployAuth (c : Account) (w : World) : TransactOpts × World :=
  let auth := c.lib.newKeyedTransactor c.pk
  let auth := { auth with gasLimit := 10000000 }
  let r := Nonce w
  ({ auth with nonce := some r.1 }, r.2)

/-- The method `Account.makeAuth`. -/
def makeAuth (c : Account) (w : World) : TransactOpts × World :=
  let auth := c.lib.newKeyedTransactor c.pk
  let auth := { auth with gasLimit := 50000 }
  let r := Nonce w
  ({ auth with nonce := some r.1 }, r.2)

/-- The method `Account.newUnsignedTx`. -/
def newUnsignedTx (c : Account) (w : World) (dest : Address) (amount : Int) (data : List Nat) :
    Except String Transaction × World :=
  let r := Nonce w
  let nonce := r.1
  let w1 := r.2
  let w2 := w1.emit .suggestGasPrice
  match c.peer.suggestGasPrice (calls Event.isSuggestGasPrice w1.trace) with
  | .error err => (.error err, w2)
  | .ok gasPrice =>
    let callMsg : CallMsg :=
      { sender := c.address, dest := some dest, gas := 0, gasPrice := gasPrice,
        value := amount, data := data }
    let w3 := w2.emit (.estimateGas callMsg)
    match c.peer.estimateGas (calls Event.isEstimateGas w2.trace) callMsg with
    | .error err => (.error ("estimate gas limit error: " ++ err), w3)
    | .ok gasLimit =>
      (.ok (NewTx { nonce := nonce, dest := some dest, value := amount, gas := gasLimit,
                    gasPrice := gasPrice, data := data }), w3)

/-- The method `Account.newSignedTx`. -/
def newSignedTx (c : Account) (w : World) (dest : Address) (amount : Int) (data : List Nat) :
    Except String Transaction × World :=
  match newUnsignedTx c w dest amount data with
  | (.error err, w1) => (.error err, w1)
  | (.ok unsignedTx, w1) => (c.lib.signTx unsignedTx c.signer c.pk, w1)

/-- The method `Account.Transfer`. -/
def Transfer (c : Account) (w : World) (dest : Address) (amount : Int) :
    (Hash × Option String) × World :=
  match newSignedTx c w dest amount [] with
  | (.error err, w1) => ((EmptyHash, some err), w1)
  | (.ok signedTx, w1) =>
    match SendTx c w1 signedTx with
    | (some err, w2) => ((EmptyHash, some err), w2)
    | (none, w2) => ((c.lib.txHash signedTx, none), w2)

/-! ## Confirmation -/

/-- The method `Account.getReceipt`. -/
def getReceipt (c : Account) (w : World) (hash : Hash) : Except String Receipt × World :=
  (c.peer.getTransactionReceipt (calls Event.isGetTransactionReceipt w.trace)
      (c.lib.hashHex hash),
    w.emit (.getTransactionReceipt (c.lib.hashHex hash)))

/-- The log lines of the topics of one event, from index `i` on. -/
def topicLines : Nat → List Hash → List Event
  | _, [] => []
  | i, topic :: rest => .log (.eventTopic i topic) :: topicLines (i + 1) rest

/-- The log lines of the `range raw.Logs` loop of `dumpEventLog`. -/
def eventLines : List Log → List Event
  | [] => []
  | event :: rest =>
    .log (.eventAddress event.address) :: .log (.eventData event.data) ::
      (topicLines 0 event.topics ++ eventLines rest)

/-- The method `Account.dumpEventLog`. -/
def dumpEventLog (c : Account) (w : World) (hash : Hash) : Option String × World :=
  match getReceipt c w hash with
  | (.error _, w1) => (some ("faild to get receipt " ++ c.lib.hashHex hash), w1)
  | (.ok raw, w1) =>
    if raw.status = 0 then
      (some ("receipt failed " ++ c.lib.hashHex hash), w1)
    else
      (none, w1.emitAll
        (.log (.txHeight (c.lib.hashHex hash) (raw.blockNumber % uint64Mod)) ::
          eventLines raw.logs))

/-- The method `Account.waitTransaction`, with a bound on the number of
iterations of its `for` loop; `none` when the bound is reached. -/
def waitTransaction (c : Account) : Nat → World → Hash → Option (Option String × World)
  | 0, _, _ => none
  | fuel + 1, w, hash =>
    let w1 := w.emit (.sleep 1)
    let w2 := w1.emit (.transactionByHash hash)
    match c.peer.transactionByHash (calls Event.isTransactionByHash w1.trace) hash with
    | .error err => waitTransaction c fuel (w2.emit (.log (.pollFailed err))) hash
    | .ok ispending =>
      if ispending = true then
        waitTransaction c fuel w2 hash
      else
        match dumpEventLog c w2 hash with
        | (some err, w3) => some (some err, w3)
        | (none, w3) => some (none, w3)

/-- The method `Account.TransferWithConfirm`, with the iteration bound of
`waitTransaction`. -/
def TransferWithConfirm (c : Account) (fuel : Nat) (w : World) (dest : Address) (amount : Int) :
    Option ((Hash × Option String) × World) :=
  match Transfer c w dest amount with
  | ((_, some err), w1) => some ((EmptyHash, some err), w1)
  | ((hash, none), w1) =>
    match waitTransaction c fuel w1 hash with
    | none => none
    | some (some err, w2) => some ((EmptyHash, some err), w2)
    | some (none, w2) => some ((hash, none), w2)

/-- The method `Account.signAndSendTxWithValue`, with the iteration bound of
`waitTransaction`.  `newSignedTx` hands back a nil transaction with every
error, so the test `tx != nil` succeeds exactly when `err` is nil. -/
def signAndSendTxWithValue (c : Account) (fuel : Nat) (w : World) (payload : List Nat)
    (amount : Int) (contract : Address) : Option ((Hash × Option String) × World) :=
  match newSignedTx c w contract amount payload with
  | (.error err, w1) => some ((EmptyHash, some ("sign tx failed, err: " ++ err)), w1)
  | (.ok tx, w1) =>
    let hash := c.lib.txHash tx
    match SendTx c w1 tx with
    | (some err, w2) => some ((hash, some err), w2)
    | (none, w2) =>
      match waitTransaction c fuel w2 (c.lib.txHash tx) with
      | none => none
      | some (some err, w3) => some ((hash, some err), w3)
      | some (none, w3) => some ((hash, none), w3)

/-! ## Concurrent callers of `Nonce`

`Nonce` takes no lock: the field `nonceMu` of `Account` is declared and never
used.  A call therefore runs as two separate steps on the shared field, the
read made by `return c.nonce` and the deferred `c.nonce += 1`, and steps of
different callers may alternate in any order. -/

/-- Where one call of `Nonce` stands. -/
inductive NonceCall where
  /-- The call has not read the counter yet. -/
  | ready
  /-- The call has evaluated `return c.nonce`; the deferred function is still to run. -/
  | returning (result : Nat)
  /-- The call has returned. -/
  | finished (result : Nat)
  deriving DecidableEq, Repr

/-- One step of one call on the shared counter; the deferred increment is
taken as a single step. -/
def NonceCall.step (nonce : Nat) : NonceCall → Nat × NonceCall
  | .ready => (nonce, .returning nonce)
  | .returning result => ((nonce + 1) % uint64Mod, .finished result)
  | .finished result => (nonce, .finished result)

/-- The shared counter and the calls in flight. -/
structure Shared where
  nonce : Nat
  running : List NonceCall
  deriving DecidableEq, Repr

/-- The state in which `n` callers are about to call `Nonce`. -/
def Shared.spawn (initial n : Nat) : Shared := ⟨initial, List.replicate n .ready⟩

/-- The scheduler lets caller `i` take its next step. -/
def Shared.step (s : Shared) (i : Nat) : Shared :=
  match s.running.get? i with
  | none => s
  | some call =>
    let r := call.step s.nonce
    ⟨r.1, s.running.set i r.2⟩

/-- Run a schedule: the callers named in the list step in that order. -/
def Shared.run (s : Shared) (schedule : List Nat) : Shared :=
  schedule.foldl Shared.step s

/-- The value a call returned, once it has. -/
def NonceCall.result : NonceCall → Option Nat
  | .finished result => some result
  | _ => none

/-- The values returned, when every call has returned. -/
def Shared.results (s : Shared) : Option (List Nat) :=
  s.running.mapM NonceCall.result

/-! ## The shape of a run of the confirmation loop -/

/-- The log line of one poll answer: the error line when the call failed. -/
def pollLog : Except String Bool → List Event
  | .error err => [.log (.pollFailed err)]
  | .ok _ => []

/-- The outside calls of `k` successive iterations of the loop of
`waitTransaction` that stay in the loop, the first of them making poll
number `n`: each iteration sleeps one second, polls, and logs the error if
the poll failed. -/
def retryEvents (c : Account) (hash : Hash) : Nat → Nat → List Event
  | _, 0 => []
  | n, k + 1 =>
    [.sleep 1, .transactionByHash hash] ++ pollLog (c.peer.transactionByHash n hash)
      ++ retryEvents c hash (n + 1) k

/-- The outside calls up to and including the poll that leaves the loop, after
`k` iterations that stayed in it. -/
def pollEvents (c : Account) (hash : Hash) (n k : Nat) : List Event :=
  retryEvents c hash n k ++ [.sleep 1, .transactionByHash hash]

/-- Is the event a line written to the log? -/
def Event.isLog : Event → Bool
  | .log _ => true
  | _ => false

/-- Does every poll in the list come right after a one-second sleep?  `prev`
is the event before the list, if any. -/
def sleepsBeforePolls : Option Event → List Event → Bool
  | _, [] => true
  | prev, e :: rest =>
    (if e.isTransactionByHash = true then decide (prev = some (.sleep 1)) else true)
      && sleepsBeforePolls (some e) rest

/-! ## Sample accounts -/

/-- A library for the samples: signing appends one signature byte, the hash
of a transaction is its nonce plus one, and the text of a hash is its digits. -/
def sampleLib : Lib :=
  { signTx := fun tx _ _ => .ok { tx with sig := [1] }
    txHash := fun tx => tx.inner.nonce + 1
    hashHex := fun h => Nat.repr h
    newKeyedTransactor := fun pk => ⟨pk, none, 0⟩ }

/-- A peer for the samples: the gas price is 1; the first poll fails, the
second reports the transaction pending, and every later one reports it not
pending; the other answers are given. -/
def samplePeer (estimate : Except String Nat) (send : Option String)
    (receipt : Except String Receipt) : Peer :=
  { suggestGasPrice := fun _ => .ok 1
    estimateGas := fun _ _ => estimate
    sendTransaction := fun _ _ => send
    transactionByHash := fun i _ =>
      if i = 0 then .error "not found" else if i = 1 then .ok true else .ok false
    getTransactionReceipt := fun _ _ => receipt }

/-- An account for the samples, talking to `samplePeer`. -/
def sampleAccount (estimate : Except String Nat) (send : Option String)
    (receipt : Except String Receipt) : Account :=
  { pk := 42, address := 1, signer := 60801, peer := samplePeer estimate send receipt,
    lib := sampleLib }

/-- A receipt of a successful execution with one log entry. -/
def sampleReceipt : Receipt := ⟨1, 5, [⟨9, [3, 4], [1]⟩]⟩

/-- A second library for the samples, in which signing shows in the hash:
signing appends two signature bytes, and the hash of a transaction is its
nonce plus 1000 for every signature byte. -/
def strictLib : Lib :=
  { signTx := fun tx _ _ => .ok { tx with sig := [27, 1] }
    txHash := fun tx => 1000 * tx.sig.length + tx.inner.nonce
    hashHex := fun h => Nat.repr h
    newKeyedTransactor := fun pk => ⟨pk, none, 0⟩ }

/-- A second peer for the samples, whose estimation depends on the call: a
call with a payload reverts, a call without payload estimates 21000 unless
its value exceeds 500.  The polls are those of `samplePeer`. -/
def strictPeer (send : Option String) (receipt : Except String Receipt) : Peer :=
  { suggestGasPrice := fun _ => .ok 1
    estimateGas := fun _ msg =>
      if msg.data = [] then
        if 500 < msg.value then .error "insufficient funds" else .ok 21000
      else .error "execution reverted"
    sendTransaction := fun _ _ => send
    transactionByHash := fun i _ =>
      if i = 0 then .error "not found" else if i = 1 then .ok true else .ok false
    getTransactionReceipt := fun _ _ => receipt }

/-- An account for the samples, talking to `strictPeer` through `strictLib`. -/
def strictAccount (send : Option String) (receipt : Except String Receipt) : Account :=
  { pk := 42, address := 1, signer := 60801, peer := strictPeer send receipt,
    lib := strictLib }

/-! ## Theorems: the nonce counter in sequence -/

theorem Nonce_fst (w : World) : (Nonce w).1 = w.nonce := rfl

theorem Nonce_snd_nonce (w : World) : (Nonce w).2.nonce = (w.nonce + 1) % uint64Mod := rfl

theorem Nonce_snd_trace (w : World) : (Nonce w).2.trace = w.trace := rfl

theorem uint64Mod_pos : 0 < uint64Mod := by unfold uint64Mod; norm_num

/-- After `n` sequential calls the counter stands `n` above its start, in `uint64`. -/
theorem nonceCalls_snd (n : Nat) (w : World) (h : w.nonce < uint64Mod) :
    (nonceCalls n w).2 = ⟨(w.nonce + n) % uint64Mod, w.trace⟩ := by
  induction n generalizing w with
  | zero =>
    simp [nonceCalls, Nat.mod_eq_of_lt h]
  | succ n ih =>
    have h1 : (Nonce w).2.nonce < uint64Mod := Nat.mod_lt _ uint64Mod_pos
    simp only [nonceCalls]
    rw [ih _ h1, Nonce_snd_nonce, Nonce_snd_trace]
    congr 1
    rw [Nat.mod_add_mod]
    congr 1
    omega

/-- The two steps of one caller, run back to back, are one call of `Nonce`. -/
theorem NonceCall.step_twice (nonce : Nat) :
    let r := NonceCall.step nonce .ready
    NonceCall.step r.1 r.2 = ((Nonce ⟨nonce, []⟩).2.nonce, .finished (Nonce ⟨nonce, []⟩).1) := by
  rfl

/-- C1: on an Account whose counter was initialised to `initial`, the `N`-th
sequential call of `Nonce` (`N ≥ 1`) returns `initial + N - 1` and leaves the
counter at `initial + N`, both in `uint64`, and touches nothing else; with
`initial = 7` the first call returns 7 and the second 8. -/
theorem C1_nonce_nth_call (initial N : Nat) (t : List Event)
    (h0 : initial < uint64Mod) (hN : 1 ≤ N) :
    Nonce (nonceCalls (N - 1) ⟨initial, t⟩).2
        = ((initial + N - 1) % uint64Mod, ⟨(initial + N) % uint64Mod, t⟩)
      ∧ (nonceCalls N ⟨initial, t⟩).2.nonce = (initial + N) % uint64Mod
      ∧ (nonceCalls 2 ⟨7, t⟩).1 = [7, 8] := by
  refine ⟨?_, ?_, ?_⟩
  · rw [nonceCalls_snd _ _ h0]
    simp only [Nonce]
    have e1 : initial + (N - 1) = initial + N - 1 := by omega
    have e2 : initial + N - 1 + 1 = initial + N := by omega
    rw [e1, Nat.mod_add_mod, e2]
  · rw [nonceCalls_snd _ _ h0]
  · simp [nonceCalls, Nonce, uint64Mod]

/-- C1 at `initial = 2^64 - 1`, `N = 2`: the second call returns 0 and leaves 1. -/
theorem C1_nonce_nth_call_witness :
    Nonce (nonceCalls (2 - 1) ⟨18446744073709551615, []⟩).2
        = ((18446744073709551615 + 2 - 1) % uint64Mod,
            ⟨(18446744073709551615 + 2) % uint64Mod, []⟩)
      ∧ (nonceCalls 2 ⟨18446744073709551615, []⟩).2.nonce
        = (18446744073709551615 + 2) % uint64Mod
      ∧ (nonceCalls 2 ⟨7, []⟩).1 = [7, 8] :=
  C1_nonce_nth_call 18446744073709551615 2 [] (by unfold uint64Mod; norm_num) (by norm_num)

/-! ## Theorems: concurrent callers -/

/-- C2: two concurrent calls of `Nonce` on a counter at 7, scheduled so that
both read before either increments, both return 7: the returned values are
not the set 7, 8, because `Nonce` never takes `nonceMu`.  Run one after the
other, the same two calls return 7 and 8. -/
theorem C2_unlocked_nonce_duplicates :
    ((Shared.spawn 7 2).run [0, 1, 0, 1]).results = some [7, 7]
      ∧ ((Shared.spawn 7 2).run [0, 1, 0, 1]).nonce = 9
      ∧ ((Shared.spawn 7 2).run [0, 0, 1, 1]).results = some [7, 8] := by
  refine ⟨?_, ?_, ?_⟩ <;> rfl

/-! ## Theorems: fixed gas limits -/

/-- C8: `makeDeployAuth` always yields gas limit 10,000,000 and `makeAuth`
always yields gas limit 50,000; each carries as its nonce the value that its
one call of `Nonce` reserved, changes the state as that call does, and the
result is the same whatever the peer behind the account is. -/
theorem C8_auth_gas_limit_fixed (c : Account) (w : World) (peer : Peer) :
    (makeDeployAuth c w).1.gasLimit = 10000000
      ∧ (makeAuth c w).1.gasLimit = 50000
      ∧ (makeDeployAuth c w).1.nonce = some (Nonce w).1
      ∧ (makeAuth c w).1.nonce = some (Nonce w).1
      ∧ (makeDeployAuth c w).2 = (Nonce w).2
      ∧ (makeAuth c w).2 = (Nonce w).2
      ∧ makeDeployAuth { c with peer := peer } w = makeDeployAuth c w
      ∧ makeAuth { c with peer := peer } w = makeAuth c w := by
  refine ⟨rfl, rfl, rfl, rfl, rfl, rfl, rfl, rfl⟩

/-! ## Theorems: the builder and the broadcaster -/

theorem calls_append (p : Event → Bool) (t u : List Event) :
    calls p (t ++ u) = calls p t + calls p u := by
  simp [calls, List.countP_append]

theorem newUnsignedTx_nonce (c : Account) (w : World) (dest : Address) (amount : Int)
    (data : List Nat) :
    (newUnsignedTx c w dest amount data).2.nonce = (w.nonce + 1) % uint64Mod := by
  unfold newUnsignedTx
  dsimp only
  split
  · rfl
  · split <;> rfl

theorem newUnsignedTx_sends (c : Account) (w : World) (dest : Address) (amount : Int)
    (data : List Nat) :
    calls Event.isSendTransaction (newUnsignedTx c w dest amount data).2.trace
      = calls Event.isSendTransaction w.trace := by
  unfold newUnsignedTx
  dsimp only
  split
  · simp [World.emit, Nonce, calls, Event.isSendTransaction]
  · split <;> simp [World.emit, Nonce, calls, Event.isSendTransaction]

theorem newSignedTx_snd (c : Account) (w : World) (dest : Address) (amount : Int)
    (data : List Nat) :
    (newSignedTx c w dest amount data).2 = (newUnsignedTx c w dest amount data).2 := by
  unfold newSignedTx
  split <;> simp_all

theorem SendTx_nonce (c : Account) (w : World) (tx : Transaction) :
    (SendTx c w tx).2.nonce = w.nonce := rfl

/-- The builder fails at gas estimation: what `newUnsignedTx` returns. -/
theorem newUnsignedTx_estimate_fails (c : Account) (w : World) (dest : Address) (amount : Int)
    (data : List Nat) (gasPrice : Int) (err : String)
    (hprice : c.peer.suggestGasPrice (calls Event.isSuggestGasPrice w.trace) = .ok gasPrice)
    (hest : c.peer.estimateGas (calls Event.isEstimateGas w.trace)
        ⟨c.address, some dest, 0, gasPrice, amount, data⟩ = .error err) :
    newUnsignedTx c w dest amount data
      = (.error ("estimate gas limit error: " ++ err),
          ⟨(w.nonce + 1) % uint64Mod,
            w.trace ++ [.suggestGasPrice,
              .estimateGas ⟨c.address, some dest, 0, gasPrice, amount, data⟩]⟩) := by
  have h2 : calls Event.isEstimateGas ((Nonce w).2.emit Event.suggestGasPrice).trace
      = calls Event.isEstimateGas w.trace := by
    simp [World.emit, Nonce, calls_append, calls, Event.isEstimateGas]
  unfold newUnsignedTx
  simp only [Nonce_snd_trace, hprice, h2, hest]
  simp [World.emit, Nonce]

/-- The builder fails at the gas-price query: what `newUnsignedTx` returns. -/
theorem newUnsignedTx_price_fails (c : Account) (w : World) (dest : Address) (amount : Int)
    (data : List Nat) (err : String)
    (hprice : c.peer.suggestGasPrice (calls Event.isSuggestGasPrice w.trace) = .error err) :
    newUnsignedTx c w dest amount data
      = (.error err, ⟨(w.nonce + 1) % uint64Mod, w.trace ++ [.suggestGasPrice]⟩) := by
  unfold newUnsignedTx
  simp only [Nonce_snd_trace, hprice]
  simp [World.emit, Nonce]

/-- The builder succeeds: what `newUnsignedTx` returns. -/
theorem newUnsignedTx_built (c : Account) (w : World) (dest : Address) (amount : Int)
    (data : List Nat) (gasPrice : Int) (gasLimit : Nat)
    (hprice : c.peer.suggestGasPrice (calls Event.isSuggestGasPrice w.trace) = .ok gasPrice)
    (hest : c.peer.estimateGas (calls Event.isEstimateGas w.trace)
        ⟨c.address, some dest, 0, gasPrice, amount, data⟩ = .ok gasLimit) :
    newUnsignedTx c w dest amount data
      = (.ok (NewTx ⟨w.nonce, some dest, amount, gasLimit, gasPrice, data⟩),
          ⟨(w.nonce + 1) % uint64Mod,
            w.trace ++ [.suggestGasPrice,
              .estimateGas ⟨c.address, some dest, 0, gasPrice, amount, data⟩]⟩) := by
  have h2 : calls Event.isEstimateGas ((Nonce w).2.emit Event.suggestGasPrice).trace
      = calls Event.isEstimateGas w.trace := by
    simp [World.emit, Nonce, calls_append, calls, Event.isEstimateGas]
  unfold newUnsignedTx
  simp only [Nonce_snd_trace, hprice, h2, hest]
  simp [World.emit, Nonce]

/-- C4: the gas-price query having succeeded, whenever the peer fails the gas
estimation of the call an operation makes, with `err`, the build fails with
"estimate gas limit error: " followed by `err` and nothing is submitted.
For a call with payload `data`: `newUnsignedTx` and `newSignedTx` return that
error and `signAndSendTxWithValue` returns it behind "sign tx failed, err: "
with the empty hash, whatever the iteration bound.  For the call without
payload that `Transfer` makes: `Transfer` returns that error with the empty
hash.  In both cases the only calls made are the gas-price query and the
estimation, so the number of `SendTransaction` calls is unchanged. -/
theorem C4_estimate_failure_no_send (c : Account) (w : World) (dest : Address) (amount : Int)
    (fuel : Nat) (gasPrice : Int)
    (hprice : c.peer.suggestGasPrice (calls Event.isSuggestGasPrice w.trace) = .ok gasPrice) :
    (∀ (data : List Nat) (err : String),
        c.peer.estimateGas (calls Event.isEstimateGas w.trace)
          ⟨c.address, some dest, 0, gasPrice, amount, data⟩ = .error err →
        newUnsignedTx c w dest amount data
            = (.error ("estimate gas limit error: " ++ err),
                ⟨(w.nonce + 1) % uint64Mod,
                  w.trace ++ [.suggestGasPrice,
                    .estimateGas ⟨c.address, some dest, 0, gasPrice, amount, data⟩]⟩)
          ∧ newSignedTx c w dest amount data
            = (.error ("estimate gas limit error: " ++ err),
                ⟨(w.nonce + 1) % uint64Mod,
                  w.trace ++ [.suggestGasPrice,
                    .estimateGas ⟨c.address, some dest, 0, gasPrice, amount, data⟩]⟩)
          ∧ signAndSendTxWithValue c fuel w data amount dest
            = some ((EmptyHash,
                some ("sign tx failed, err: " ++ ("estimate gas limit error: " ++ err))),
                ⟨(w.nonce + 1) % uint64Mod,
                  w.trace ++ [.suggestGasPrice,
                    .estimateGas ⟨c.address, some dest, 0, gasPrice, amount, data⟩]⟩)
          ∧ calls Event.isSendTransaction
              (w.trace ++ [.suggestGasPrice,
                .estimateGas ⟨c.address, some dest, 0, gasPrice, amount, data⟩])
            = calls Event.isSendTransaction w.trace)
      ∧ (∀ (err : String),
        c.peer.estimateGas (calls Event.isEstimateGas w.trace)
          ⟨c.address, some dest, 0, gasPrice, amount, []⟩ = .error err →
        Transfer c w dest amount
            = ((EmptyHash, some ("estimate gas limit error: " ++ err)),
                ⟨(w.nonce + 1) % uint64Mod,
                  w.trace ++ [.suggestGasPrice,
                    .estimateGas ⟨c.address, some dest, 0, gasPrice, amount, []⟩]⟩)
          ∧ calls Event.isSendTransaction
              (w.trace ++ [.suggestGasPrice,
                .estimateGas ⟨c.address, some dest, 0, gasPrice, amount, []⟩])
            = calls Event.isSendTransaction w.trace) := by
  constructor
  · intro data err hest
    have hu := newUnsignedTx_estimate_fails c w dest amount data gasPrice err hprice hest
    refine ⟨hu, ?_, ?_, ?_⟩
    · simp only [newSignedTx, hu]
    · simp only [signAndSendTxWithValue, newSignedTx, hu]
    · simp [calls_append, calls, Event.isSendTransaction]
  · intro err hest
    have hu := newUnsignedTx_estimate_fails c w dest amount [] gasPrice err hprice hest
    refine ⟨?_, ?_⟩
    · simp only [Transfer, newSignedTx, hu]
    · simp [calls_append, calls, Event.isSendTransaction]

/-- C4 on the second sample peer, which estimates a payload-free call of
value up to 500 and reverts on every payload: a call with payload of value
100 fails in `signAndSendTxWithValue`, and a transfer of value 1000 fails in
`Transfer`, neither with a submission. -/
theorem C4_estimate_failure_no_send_witness :
    signAndSendTxWithValue (strictAccount none (.ok sampleReceipt)) 0 ⟨7, []⟩ [202] 100 2
        = some ((EmptyHash,
            some "sign tx failed, err: estimate gas limit error: execution reverted"),
            ⟨8, [.suggestGasPrice, .estimateGas ⟨1, some 2, 0, 1, 100, [202]⟩]⟩)
      ∧ Transfer (strictAccount none (.ok sampleReceipt)) ⟨7, []⟩ 2 1000
        = ((EmptyHash, some "estimate gas limit error: insufficient funds"),
            ⟨8, [.suggestGasPrice, .estimateGas ⟨1, some 2, 0, 1, 1000, []⟩]⟩) :=
  ⟨((C4_estimate_failure_no_send (strictAccount none (.ok sampleReceipt)) ⟨7, []⟩ 2 100 0 1
      rfl).1 [202] "execution reverted" rfl).2.2.1,
   ((C4_estimate_failure_no_send (strictAccount none (.ok sampleReceipt)) ⟨7, []⟩ 2 1000 0 1
      rfl).2 "insufficient funds" rfl).1⟩

/-! ## Theorems: the confirmation loop -/

theorem calls_retryEvents_polls (c : Account) (hash : Hash) (n k : Nat) :
    calls Event.isTransactionByHash (retryEvents c hash n k) = k := by
  induction k generalizing n with
  | zero => rfl
  | succ k ih =>
    simp only [retryEvents, calls_append, ih]
    cases c.peer.transactionByHash n hash <;>
      simp [calls, pollLog, Event.isTransactionByHash] <;> omega

theorem calls_retryEvents_sleeps (c : Account) (hash : Hash) (n k : Nat) :
    calls Event.isSleep (retryEvents c hash n k) = k := by
  induction k generalizing n with
  | zero => rfl
  | succ k ih =>
    simp only [retryEvents, calls_append, ih]
    cases c.peer.transactionByHash n hash <;>
      simp [calls, pollLog, Event.isSleep] <;> omega

theorem calls_retryEvents_receipts (c : Account) (hash : Hash) (n k : Nat) :
    calls Event.isGetTransactionReceipt (retryEvents c hash n k) = 0 := by
  induction k generalizing n with
  | zero => rfl
  | succ k ih =>
    simp only [retryEvents, calls_append, ih]
    cases c.peer.transactionByHash n hash <;>
      simp [calls, pollLog, Event.isGetTransactionReceipt]

theorem calls_retryEvents_sends (c : Account) (hash : Hash) (n k : Nat) :
    calls Event.isSendTransaction (retryEvents c hash n k) = 0 := by
  induction k generalizing n with
  | zero => rfl
  | succ k ih =>
    simp only [retryEvents, calls_append, ih]
    cases c.peer.transactionByHash n hash <;>
      simp [calls, pollLog, Event.isSendTransaction]

theorem calls_retryEvents_other (c : Account) (hash : Hash) (n k : Nat) (p : Event → Bool)
    (hsleep : ∀ d, p (.sleep d) = false) (hpoll : ∀ h, p (.transactionByHash h) = false)
    (hlog : ∀ line, p (.log line) = false) :
    calls p (retryEvents c hash n k) = 0 := by
  induction k generalizing n with
  | zero => rfl
  | succ k ih =>
    simp only [retryEvents, calls_append, ih]
    cases c.peer.transactionByHash n hash <;>
      simp [calls, pollLog, hsleep, hpoll, hlog]

/-- One iteration whose poll fails or reports the transaction pending: the
loop goes round again. -/
theorem waitTransaction_retry (c : Account) (fuel : Nat) (w : World) (hash : Hash)
    (h : c.peer.transactionByHash (calls Event.isTransactionByHash w.trace) hash ≠ .ok false) :
    waitTransaction c (fuel + 1) w hash
      = waitTransaction c fuel
          (w.emitAll (retryEvents c hash (calls Event.isTransactionByHash w.trace) 1)) hash := by
  have h1 : calls Event.isTransactionByHash (w.emit (.sleep 1)).trace
      = calls Event.isTransactionByHash w.trace := by
    simp [World.emit, calls, Event.isTransactionByHash]
  rw [waitTransaction]
  simp only [h1]
  cases hr : c.peer.transactionByHash (calls Event.isTransactionByHash w.trace) hash with
  | error err =>
    simp [World.emit, World.emitAll, retryEvents, pollLog, hr]
  | ok ispending =>
    cases ispending with
    | false => exact absurd hr h
    | true => simp [World.emit, World.emitAll, retryEvents, pollLog, hr]

/-- The iteration whose poll reports the transaction not pending: the loop is
left with whatever `dumpEventLog` returns. -/
theorem waitTransaction_leave (c : Account) (fuel : Nat) (w : World) (hash : Hash)
    (h : c.peer.transactionByHash (calls Event.isTransactionByHash w.trace) hash = .ok false) :
    waitTransaction c (fuel + 1) w hash
      = some (dumpEventLog c (w.emitAll [.sleep 1, .transactionByHash hash]) hash) := by
  have h1 : calls Event.isTransactionByHash (w.emit (.sleep 1)).trace
      = calls Event.isTransactionByHash w.trace := by
    simp [World.emit, calls, Event.isTransactionByHash]
  have h2 : (w.emit (.sleep 1)).emit (.transactionByHash hash)
      = w.emitAll [.sleep 1, .transactionByHash hash] := by
    simp [World.emit, World.emitAll]
  rw [waitTransaction]
  simp only [h1, h, h2]
  simp only [Bool.false_eq_true, if_false]
  rcases hd : dumpEventLog c (w.emitAll [.sleep 1, .transactionByHash hash]) hash with ⟨r, w3⟩
  cases r <;> rfl

/-- The loop absorbs `k` polls that fail or report the transaction pending. -/
theorem waitTransaction_absorb (c : Account) (hash : Hash) (k : Nat) :
    ∀ (fuel : Nat) (w : World),
      (∀ i, i < k →
        c.peer.transactionByHash (calls Event.isTransactionByHash w.trace + i) hash
          ≠ .ok false) →
      waitTransaction c (fuel + k) w hash
        = waitTransaction c fuel
            (w.emitAll (retryEvents c hash (calls Event.isTransactionByHash w.trace) k))
            hash := by
  induction k with
  | zero =>
    intro fuel w _
    simp [retryEvents, World.emitAll]
  | succ k ih =>
    intro fuel w h
    have h0 := h 0 (Nat.succ_pos k)
    rw [Nat.add_zero] at h0
    rw [← Nat.add_assoc, waitTransaction_retry c (fuel + k) w hash h0]
    have hc : calls Event.isTransactionByHash
        (w.emitAll (retryEvents c hash (calls Event.isTransactionByHash w.trace) 1)).trace
        = calls Event.isTransactionByHash w.trace + 1 := by
      simp only [World.emitAll, calls_append, calls_retryEvents_polls]
    rw [ih fuel _ (by
      intro i hi
      rw [hc, Nat.add_assoc, Nat.add_comm 1 i]
      exact h (i + 1) (Nat.succ_lt_succ hi)), hc]
    congr 1
    simp [World.emitAll, retryEvents, List.append_assoc]

/-- After `k` absorbed polls and one that reports the transaction not
pending, the loop ends with whatever `dumpEventLog` returns, for every bound
of at least `k + 1` iterations. -/
theorem waitTransaction_settles (c : Account) (w : World) (hash : Hash) (k fuel : Nat)
    (hretry : ∀ i, i < k →
      c.peer.transactionByHash (calls Event.isTransactionByHash w.trace + i) hash ≠ .ok false)
    (hdone : c.peer.transactionByHash (calls Event.isTransactionByHash w.trace + k) hash
      = .ok false)
    (hfuel : k + 1 ≤ fuel) :
    waitTransaction c fuel w hash
      = some (dumpEventLog c
          (w.emitAll (pollEvents c hash (calls Event.isTransactionByHash w.trace) k)) hash) := by
  obtain ⟨extra, rfl⟩ : ∃ extra, fuel = (extra + 1) + k := ⟨fuel - (k + 1), by omega⟩
  rw [waitTransaction_absorb c hash k (extra + 1) w hretry]
  have hc : calls Event.isTransactionByHash
      (w.emitAll (retryEvents c hash (calls Event.isTransactionByHash w.trace) k)).trace
      = calls Event.isTransactionByHash w.trace + k := by
    simp only [World.emitAll, calls_append, calls_retryEvents_polls]
  rw [waitTransaction_leave c extra _ hash (by rw [hc]; exact hdone)]
  simp [World.emitAll, pollEvents, List.append_assoc]

theorem topicLines_all_log (i : Nat) (topics : List Hash) :
    (topicLines i topics).all Event.isLog = true := by
  induction topics generalizing i with
  | nil => rfl
  | cons topic rest ih => simp [topicLines, Event.isLog, ih]

theorem eventLines_all_log (logs : List Log) : (eventLines logs).all Event.isLog = true := by
  induction logs with
  | nil => rfl
  | cons event rest ih =>
    simp only [eventLines, List.all_cons, List.all_append, Event.isLog, topicLines_all_log, ih]
    rfl

theorem calls_eq_zero_of_all_log (p : Event → Bool) (hp : ∀ line, p (.log line) = false)
    (t : List Event) (h : t.all Event.isLog = true) : calls p t = 0 := by
  induction t with
  | nil => rfl
  | cons e rest ih =>
    simp only [List.all_cons, Bool.and_eq_true] at h
    cases e <;> simp_all [calls, Event.isLog]

theorem calls_cons_of_all_log (p : Event → Bool) (hp : ∀ line, p (.log line) = false)
    (e : Event) (t : List Event) (h : t.all Event.isLog = true) :
    calls p (e :: t) = calls p [e] := by
  have h0 := calls_eq_zero_of_all_log p hp t h
  have := calls_append p [e] t
  simpa [h0] using this

theorem sleepsBeforePolls_of_all_log (prev : Option Event) (t : List Event)
    (h : t.all Event.isLog = true) : sleepsBeforePolls prev t = true := by
  induction t generalizing prev with
  | nil => rfl
  | cons e rest ih =>
    simp only [List.all_cons, Bool.and_eq_true] at h
    cases e <;> simp_all [sleepsBeforePolls, Event.isLog, Event.isTransactionByHash]

theorem sleepsBeforePolls_retryEvents (c : Account) (hash : Hash) (n k : Nat)
    (prev : Option Event) (e : Event) (rest : List Event)
    (he : e.isTransactionByHash = false) :
    sleepsBeforePolls prev (retryEvents c hash n k ++ e :: rest)
      = sleepsBeforePolls (some e) rest := by
  induction k generalizing n prev with
  | zero => simp [retryEvents, sleepsBeforePolls, he]
  | succ k ih =>
    cases hr : c.peer.transactionByHash n hash <;>
      simp [retryEvents, pollLog, hr, sleepsBeforePolls, Event.isTransactionByHash, ih]

/-- Every poll made up to the one that leaves the loop, and everything after
the receipt fetch, respects the one-second sleep before each poll. -/
theorem sleepsBeforePolls_pollEvents (c : Account) (hash : Hash) (n k : Nat)
    (hashHex : String) (tail : List Event) (h : tail.all Event.isLog = true) :
    sleepsBeforePolls none (pollEvents c hash n k ++ .getTransactionReceipt hashHex :: tail)
      = true := by
  unfold pollEvents
  rw [List.append_assoc, List.cons_append,
    sleepsBeforePolls_retryEvents c hash n k none (.sleep 1) _ rfl]
  simp [sleepsBeforePolls, Event.isTransactionByHash, sleepsBeforePolls_of_all_log _ _ h]

/-- What `dumpEventLog` does when the receipt fetch fails. -/
theorem dumpEventLog_fetch_fails (c : Account) (w : World) (hash : Hash) (err : String)
    (h : c.peer.getTransactionReceipt (calls Event.isGetTransactionReceipt w.trace)
      (c.lib.hashHex hash) = .error err) :
    dumpEventLog c w hash
      = (some ("faild to get receipt " ++ c.lib.hashHex hash),
          ⟨w.nonce, w.trace ++ [.getTransactionReceipt (c.lib.hashHex hash)]⟩) := by
  simp [dumpEventLog, getReceipt, h, World.emit]

/-- What `dumpEventLog` does when the receipt has status 0. -/
theorem dumpEventLog_reverted (c : Account) (w : World) (hash : Hash) (raw : Receipt)
    (h : c.peer.getTransactionReceipt (calls Event.isGetTransactionReceipt w.trace)
      (c.lib.hashHex hash) = .ok raw)
    (hs : raw.status = 0) :
    dumpEventLog c w hash
      = (some ("receipt failed " ++ c.lib.hashHex hash),
          ⟨w.nonce, w.trace ++ [.getTransactionReceipt (c.lib.hashHex hash)]⟩) := by
  simp [dumpEventLog, getReceipt, h, hs, World.emit]

/-- What `dumpEventLog` does when the receipt has a nonzero status. -/
theorem dumpEventLog_success (c : Account) (w : World) (hash : Hash) (raw : Receipt)
    (h : c.peer.getTransactionReceipt (calls Event.isGetTransactionReceipt w.trace)
      (c.lib.hashHex hash) = .ok raw)
    (hs : raw.status ≠ 0) :
    dumpEventLog c w hash
      = (none,
          ⟨w.nonce, w.trace ++ .getTransactionReceipt (c.lib.hashHex hash) ::
            .log (.txHeight (c.lib.hashHex hash) (raw.blockNumber % uint64Mod)) ::
              eventLines raw.logs⟩) := by
  simp [dumpEventLog, getReceipt, h, hs, World.emit, World.emitAll]

/-- Whatever the peer answers, `dumpEventLog` fetches the receipt once, then
at most writes log lines, and fails only with one of its two own errors. -/
theorem dumpEventLog_shape (c : Account) (w : World) (hash : Hash) :
    ∃ r tail,
      dumpEventLog c w hash
          = (r, ⟨w.nonce, w.trace ++ .getTransactionReceipt (c.lib.hashHex hash) :: tail⟩)
        ∧ tail.all Event.isLog = true
        ∧ (r = none ∨ r = some ("faild to get receipt " ++ c.lib.hashHex hash)
            ∨ r = some ("receipt failed " ++ c.lib.hashHex hash)) := by
  cases h : c.peer.getTransactionReceipt (calls Event.isGetTransactionReceipt w.trace)
      (c.lib.hashHex hash) with
  | error err =>
    exact ⟨_, [], dumpEventLog_fetch_fails c w hash err h, rfl, Or.inr (Or.inl rfl)⟩
  | ok raw =>
    by_cases hs : raw.status = 0
    · exact ⟨_, [], dumpEventLog_reverted c w hash raw h hs, rfl, Or.inr (Or.inr rfl)⟩
    · refine ⟨_, _, dumpEventLog_success c w hash raw h hs, ?_, Or.inl rfl⟩
      simp only [List.all_cons, Event.isLog, eventLines_all_log]
      rfl

theorem calls_pollEvents_receipts (c : Account) (w : World) (hash : Hash) (n k : Nat) :
    calls Event.isGetTransactionReceipt (w.emitAll (pollEvents c hash n k)).trace
      = calls Event.isGetTransactionReceipt w.trace := by
  simp [World.emitAll, pollEvents, calls_append, calls_retryEvents_receipts]
  simp [calls, Event.isGetTransactionReceipt]

theorem calls_pollEvents_polls (c : Account) (hash : Hash) (n k : Nat) :
    calls Event.isTransactionByHash (pollEvents c hash n k) = k + 1 := by
  simp [pollEvents, calls_append, calls_retryEvents_polls]
  simp [calls, Event.isTransactionByHash]

theorem calls_pollEvents_sleeps (c : Account) (hash : Hash) (n k : Nat) :
    calls Event.isSleep (pollEvents c hash n k) = k + 1 := by
  simp [pollEvents, calls_append, calls_retryEvents_sleeps]
  simp [calls, Event.isSleep]

/-- C3: once the peer reports the transaction not pending (after `k` polls
that failed or reported it pending) and the receipt fetched has status 0,
`waitTransaction` returns the error "receipt failed " followed by the hash,
having made `k + 1` polls and nothing after the receipt fetch; if the
receipt has a nonzero status it returns no error. -/
theorem C3_receipt_status_decides (c : Account) (w : World) (hash : Hash) (k fuel : Nat)
    (raw : Receipt)
    (hretry : ∀ i, i < k →
      c.peer.transactionByHash (calls Event.isTransactionByHash w.trace + i) hash ≠ .ok false)
    (hdone : c.peer.transactionByHash (calls Event.isTransactionByHash w.trace + k) hash
      = .ok false)
    (hfuel : k + 1 ≤ fuel)
    (hreceipt : c.peer.getTransactionReceipt (calls Event.isGetTransactionReceipt w.trace)
      (c.lib.hashHex hash) = .ok raw) :
    (raw.status = 0 →
        waitTransaction c fuel w hash
          = some (some ("receipt failed " ++ c.lib.hashHex hash),
              ⟨w.nonce,
                w.trace ++ pollEvents c hash (calls Event.isTransactionByHash w.trace) k
                  ++ [.getTransactionReceipt (c.lib.hashHex hash)]⟩))
      ∧ (raw.status ≠ 0 →
        waitTransaction c fuel w hash
          = some (none,
              ⟨w.nonce,
                w.trace ++ pollEvents c hash (calls Event.isTransactionByHash w.trace) k
                  ++ .getTransactionReceipt (c.lib.hashHex hash) ::
                    .log (.txHeight (c.lib.hashHex hash) (raw.blockNumber % uint64Mod)) ::
                      eventLines raw.logs⟩))
      ∧ calls Event.isTransactionByHash
          (pollEvents c hash (calls Event.isTransactionByHash w.trace) k) = k + 1 := by
  have hr : c.peer.getTransactionReceipt
      (calls Event.isGetTransactionReceipt
        (w.emitAll (pollEvents c hash (calls Event.isTransactionByHash w.trace) k)).trace)
      (c.lib.hashHex hash) = .ok raw := by
    rw [calls_pollEvents_receipts]; exact hreceipt
  refine ⟨fun hs => ?_, fun hs => ?_, calls_pollEvents_polls c hash _ k⟩
  · rw [waitTransaction_settles c w hash k fuel hretry hdone hfuel,
      dumpEventLog_reverted c _ hash raw hr hs]
    rfl
  · rw [waitTransaction_settles c w hash k fuel hretry hdone hfuel,
      dumpEventLog_success c _ hash raw hr hs]
    rfl

/-- C3 on the sample peer, whose third poll reports the transaction not
pending, with a receipt of status 0. -/
theorem C3_receipt_status_decides_witness :
    waitTransaction (sampleAccount (.ok 21000) none (.ok ⟨0, 5, []⟩)) 3 ⟨7, []⟩ 8
      = some (some "receipt failed 8",
          ⟨7, [.sleep 1, .transactionByHash 8, .log (.pollFailed "not found"),
               .sleep 1, .transactionByHash 8,
               .sleep 1, .transactionByHash 8,
               .getTransactionReceipt "8"]⟩) :=
  (C3_receipt_status_decides (sampleAccount (.ok 21000) none (.ok ⟨0, 5, []⟩)) ⟨7, []⟩ 8 2 3
    ⟨0, 5, []⟩
    (by intro i hi; interval_cases i <;> simp [sampleAccount, samplePeer, calls])
    rfl (by norm_num) rfl).1 rfl

/-- C9: when the peer answers `k` polls with a failure or "still pending"
and the next one with "not pending", `waitTransaction` returns, for every
bound of at least `k + 1` iterations; it makes exactly `k + 1` polls and
`k + 1` one-second sleeps, every poll right after a sleep, fetches the
receipt exactly once, after the last poll, and then only writes log lines;
its result is that of `dumpEventLog`, so the only errors it can return are
the two about the receipt. -/
theorem C9_poll_failures_absorbed (c : Account) (w : World) (hash : Hash) (k fuel : Nat)
    (hretry : ∀ i, i < k →
      c.peer.transactionByHash (calls Event.isTransactionByHash w.trace + i) hash ≠ .ok false)
    (hdone : c.peer.transactionByHash (calls Event.isTransactionByHash w.trace + k) hash
      = .ok false)
    (hfuel : k + 1 ≤ fuel) :
    ∃ r tail,
      waitTransaction c fuel w hash
          = some (r, ⟨w.nonce,
              w.trace ++ (pollEvents c hash (calls Event.isTransactionByHash w.trace) k
                ++ .getTransactionReceipt (c.lib.hashHex hash) :: tail)⟩)
        ∧ waitTransaction c fuel w hash
          = some (dumpEventLog c
              (w.emitAll (pollEvents c hash (calls Event.isTransactionByHash w.trace) k)) hash)
        ∧ tail.all Event.isLog = true
        ∧ calls Event.isTransactionByHash
            (pollEvents c hash (calls Event.isTransactionByHash w.trace) k
              ++ .getTransactionReceipt (c.lib.hashHex hash) :: tail) = k + 1
        ∧ calls Event.isSleep
            (pollEvents c hash (calls Event.isTransactionByHash w.trace) k
              ++ .getTransactionReceipt (c.lib.hashHex hash) :: tail) = k + 1
        ∧ calls Event.isGetTransactionReceipt
            (pollEvents c hash (calls Event.isTransactionByHash w.trace) k
              ++ .getTransactionReceipt (c.lib.hashHex hash) :: tail) = 1
        ∧ sleepsBeforePolls none
            (pollEvents c hash (calls Event.isTransactionByHash w.trace) k
              ++ .getTransactionReceipt (c.lib.hashHex hash) :: tail) = true
        ∧ (r = none ∨ r = some ("faild to get receipt " ++ c.lib.hashHex hash)
            ∨ r = some ("receipt failed " ++ c.lib.hashHex hash)) := by
  obtain ⟨r, tail, hd, hlog, hres⟩ := dumpEventLog_shape c
    (w.emitAll (pollEvents c hash (calls Event.isTransactionByHash w.trace) k)) hash
  have hset := waitTransaction_settles c w hash k fuel hretry hdone hfuel
  have hcons : ∀ p : Event → Bool, (∀ line, p (.log line) = false) →
      calls p (.getTransactionReceipt (c.lib.hashHex hash) :: tail)
        = calls p [.getTransactionReceipt (c.lib.hashHex hash)] := by
    intro p hp
    have h0 := calls_eq_zero_of_all_log p hp tail hlog
    have := calls_append p [.getTransactionReceipt (c.lib.hashHex hash)] tail
    simpa [h0] using this
  refine ⟨r, tail, ?_, hset, hlog, ?_, ?_, ?_, ?_, hres⟩
  · rw [hset, hd]
    simp [World.emitAll, List.append_assoc]
  · rw [calls_append, calls_pollEvents_polls, hcons _ (fun _ => rfl)]
    rfl
  · rw [calls_append, calls_pollEvents_sleeps, hcons _ (fun _ => rfl)]
    rfl
  · have h0 := calls_pollEvents_receipts c ⟨0, []⟩ hash
      (calls Event.isTransactionByHash w.trace) k
    simp only [World.emitAll, List.nil_append] at h0
    rw [calls_append, h0, hcons _ (fun _ => rfl)]
    rfl
  · exact sleepsBeforePolls_pollEvents c hash _ k _ tail hlog

/-- C9 on the sample peer: one failed poll, one "pending", one "not pending". -/
theorem C9_poll_failures_absorbed_witness :
    ∃ r tail,
      waitTransaction (sampleAccount (.ok 21000) none (.ok sampleReceipt)) 5 ⟨7, []⟩ 8
          = some (r, ⟨7,
              [] ++ (pollEvents (sampleAccount (.ok 21000) none (.ok sampleReceipt)) 8 0 2
                ++ .getTransactionReceipt "8" :: tail)⟩)
        ∧ tail.all Event.isLog = true
        ∧ (r = none ∨ r = some "faild to get receipt 8" ∨ r = some "receipt failed 8") := by
  obtain ⟨r, tail, h1, _, h3, _, _, _, _, h8⟩ :=
    C9_poll_failures_absorbed (sampleAccount (.ok 21000) none (.ok sampleReceipt)) ⟨7, []⟩ 8 2 5
      (by intro i hi; interval_cases i <;> simp [sampleAccount, samplePeer, calls])
      rfl (by norm_num)
  exact ⟨r, tail, h1, h3, h8⟩

/-- C10: once the peer has reported the transaction not pending (after `k`
polls that failed or reported it pending, all absorbed), a failing receipt
fetch ends `waitTransaction`: it returns the error "faild to get receipt "
followed by the hash, in which the transport error `err` does not appear,
after `k + 1` polls and one receipt fetch, with no further call. -/
theorem C10_receipt_fetch_failure_terminal (c : Account) (w : World) (hash : Hash)
    (k fuel : Nat) (err : String)
    (hretry : ∀ i, i < k →
      c.peer.transactionByHash (calls Event.isTransactionByHash w.trace + i) hash ≠ .ok false)
    (hdone : c.peer.transactionByHash (calls Event.isTransactionByHash w.trace + k) hash
      = .ok false)
    (hfuel : k + 1 ≤ fuel)
    (hreceipt : c.peer.getTransactionReceipt (calls Event.isGetTransactionReceipt w.trace)
      (c.lib.hashHex hash) = .error err) :
    waitTransaction c fuel w hash
        = some (some ("faild to get receipt " ++ c.lib.hashHex hash),
            ⟨w.nonce,
              w.trace ++ pollEvents c hash (calls Event.isTransactionByHash w.trace) k
                ++ [.getTransactionReceipt (c.lib.hashHex hash)]⟩)
      ∧ calls Event.isTransactionByHash
          (pollEvents c hash (calls Event.isTransactionByHash w.trace) k
            ++ [.getTransactionReceipt (c.lib.hashHex hash)]) = k + 1
      ∧ calls Event.isGetTransactionReceipt
          (pollEvents c hash (calls Event.isTransactionByHash w.trace) k
            ++ [.getTransactionReceipt (c.lib.hashHex hash)]) = 1 := by
  have hr : c.peer.getTransactionReceipt
      (calls Event.isGetTransactionReceipt
        (w.emitAll (pollEvents c hash (calls Event.isTransactionByHash w.trace) k)).trace)
      (c.lib.hashHex hash) = .error err := by
    rw [calls_pollEvents_receipts]; exact hreceipt
  refine ⟨?_, ?_, ?_⟩
  · rw [waitTransaction_settles c w hash k fuel hretry hdone hfuel,
      dumpEventLog_fetch_fails c _ hash err hr]
    rfl
  · rw [calls_append, calls_pollEvents_polls]
    rfl
  · have h0 := calls_pollEvents_receipts c ⟨0, []⟩ hash
      (calls Event.isTransactionByHash w.trace) k
    simp only [World.emitAll, List.nil_append] at h0
    rw [calls_append, h0]
    rfl

/-- C10 on the sample peer with a receipt fetch that fails with "timeout". -/
theorem C10_receipt_fetch_failure_terminal_witness :
    waitTransaction (sampleAccount (.ok 21000) none (.error "timeout")) 3 ⟨7, []⟩ 8
      = some (some "faild to get receipt 8",
          ⟨7, [.sleep 1, .transactionByHash 8, .log (.pollFailed "not found"),
               .sleep 1, .transactionByHash 8,
               .sleep 1, .transactionByHash 8,
               .getTransactionReceipt "8"]⟩) :=
  (C10_receipt_fetch_failure_terminal (sampleAccount (.ok 21000) none (.error "timeout"))
    ⟨7, []⟩ 8 2 3 "timeout"
    (by intro i hi; interval_cases i <;> simp [sampleAccount, samplePeer, calls])
    rfl (by norm_num) rfl).1

/-! ## Theorems: the facade -/

/-- What the builder adds to the record: one gas-price query and at most one
estimation, nothing else. -/
theorem newUnsignedTx_trace (c : Account) (w : World) (dest : Address) (amount : Int)
    (data : List Nat) :
    ∃ added,
      (newUnsignedTx c w dest amount data).2.trace = w.trace ++ added
        ∧ calls Event.isSuggestGasPrice added = 1
        ∧ calls Event.isEstimateGas added ≤ 1
        ∧ calls Event.isSendTransaction added = 0
        ∧ calls Event.isSleep added = 0
        ∧ calls Event.isTransactionByHash added = 0
        ∧ calls Event.isGetTransactionReceipt added = 0 := by
  unfold newUnsignedTx
  dsimp only
  split
  · exact ⟨[.suggestGasPrice], rfl, rfl, by decide, rfl, rfl, rfl, rfl⟩
  · rename_i gasPrice _
    split <;>
      exact ⟨[.suggestGasPrice,
          .estimateGas ⟨c.address, some dest, 0, gasPrice, amount, data⟩],
        by simp [World.emit, Nonce], rfl, Nat.le_refl 1, rfl, rfl, rfl, rfl⟩

/-- The state after `Transfer` is the state after the builder, with the
submission recorded if the build succeeded. -/
theorem Transfer_snd (c : Account) (w : World) (dest : Address) (amount : Int) :
    (Transfer c w dest amount).2 = (newUnsignedTx c w dest amount []).2
      ∨ ∃ tx, (Transfer c w dest amount).2
          = (newUnsignedTx c w dest amount []).2.emit (.sendTransaction tx) := by
  have hs := newSignedTx_snd c w dest amount []
  unfold Transfer
  rcases h : newSignedTx c w dest amount [] with ⟨r, w1⟩
  rw [h] at hs
  dsimp only at hs
  subst hs
  cases r with
  | error err => exact Or.inl rfl
  | ok signedTx =>
    refine Or.inr ⟨signedTx, ?_⟩
    dsimp only
    rcases h2 : SendTx c (newUnsignedTx c w dest amount []).2 signedTx with ⟨e, w2⟩
    have h3 : w2 = (newUnsignedTx c w dest amount []).2.emit (.sendTransaction signedTx) := by
      have := congrArg Prod.snd h2
      simpa [SendTx] using this.symm
    subst h3
    cases e <;> rfl

theorem Transfer_nonce (c : Account) (w : World) (dest : Address) (amount : Int) :
    (Transfer c w dest amount).2.nonce = (w.nonce + 1) % uint64Mod := by
  rcases Transfer_snd c w dest amount with h | ⟨tx, h⟩
  · rw [h, newUnsignedTx_nonce]
  · rw [h]
    exact newUnsignedTx_nonce c w dest amount []

/-- What `Transfer` adds to the record: one gas-price query, at most one
estimation and at most one submission, and no sleep, poll or receipt fetch. -/
theorem Transfer_trace (c : Account) (w : World) (dest : Address) (amount : Int) :
    ∃ added,
      (Transfer c w dest amount).2.trace = w.trace ++ added
        ∧ calls Event.isSuggestGasPrice added = 1
        ∧ calls Event.isEstimateGas added ≤ 1
        ∧ calls Event.isSendTransaction added ≤ 1
        ∧ calls Event.isSleep added = 0
        ∧ calls Event.isTransactionByHash added = 0
        ∧ calls Event.isGetTransactionReceipt added = 0 := by
  obtain ⟨added, ht, h1, h2, h3, h4, h5, h6⟩ := newUnsignedTx_trace c w dest amount []
  rcases Transfer_snd c w dest amount with h | ⟨tx, h⟩
  · exact ⟨added, by rw [h, ht], h1, h2, by omega, h4, h5, h6⟩
  · refine ⟨added ++ [.sendTransaction tx], ?_, ?_, ?_, ?_, ?_, ?_, ?_⟩
    · rw [h]; simp [World.emit, ht]
    · rw [calls_append, h1]; rfl
    · rw [calls_append]; exact h2
    · rw [calls_append, h3]; exact Nat.le_refl 1
    · rw [calls_append, h4]; rfl
    · rw [calls_append, h5]; rfl
    · rw [calls_append, h6]; rfl

/-- What `waitTransaction` leaves alone when it returns: the nonce counter,
and it makes no gas-price query, estimation or submission. -/
theorem waitTransaction_frame (c : Account) (hash : Hash) (fuel : Nat) :
    ∀ (w : World) (r : Option String) (w2 : World),
      waitTransaction c fuel w hash = some (r, w2) →
      w2.nonce = w.nonce
        ∧ ∃ added, w2.trace = w.trace ++ added
          ∧ calls Event.isSuggestGasPrice added = 0
          ∧ calls Event.isEstimateGas added = 0
          ∧ calls Event.isSendTransaction added = 0 := by
  induction fuel with
  | zero => intro w r w2 h; simp [waitTransaction] at h
  | succ fuel ih =>
    intro w r w2 h
    by_cases hp : c.peer.transactionByHash (calls Event.isTransactionByHash w.trace) hash
        = .ok false
    · rw [waitTransaction_leave c fuel w hash hp] at h
      obtain ⟨r1, tail, hd, hlog, _⟩ :=
        dumpEventLog_shape c (w.emitAll [.sleep 1, .transactionByHash hash]) hash
      rw [hd] at h
      cases h
      refine ⟨rfl, _, List.append_assoc _ _ _, ?_, ?_, ?_⟩
      · rw [calls_append,
          calls_cons_of_all_log Event.isSuggestGasPrice (fun _ => rfl) _ tail hlog]
        rfl
      · rw [calls_append,
          calls_cons_of_all_log Event.isEstimateGas (fun _ => rfl) _ tail hlog]
        rfl
      · rw [calls_append,
          calls_cons_of_all_log Event.isSendTransaction (fun _ => rfl) _ tail hlog]
        rfl
    · rw [waitTransaction_retry c fuel w hash hp] at h
      obtain ⟨hn, added, ht, h1, h2, h3⟩ := ih _ r w2 h
      refine ⟨hn, _, by rw [ht]; exact List.append_assoc _ _ _, ?_, ?_, ?_⟩
      · rw [calls_append, h1,
          calls_retryEvents_other c hash _ 1 _ (fun _ => rfl) (fun _ => rfl) (fun _ => rfl)]
      · rw [calls_append, h2,
          calls_retryEvents_other c hash _ 1 _ (fun _ => rfl) (fun _ => rfl) (fun _ => rfl)]
      · rw [calls_append, h3, calls_retryEvents_sends]

/-- When the build succeeds and the peer rejects the submission, `Transfer`
returns the error with the empty hash, while `signAndSendTxWithValue` returns
it with the hash of the signed transaction. -/
theorem Transfer_send_rejected (c : Account) (w w1 : World) (dest : Address) (amount : Int)
    (signedTx : Transaction) (err : String) (fuel : Nat)
    (hbuild : newSignedTx c w dest amount [] = (.ok signedTx, w1))
    (hsend : c.peer.sendTransaction (calls Event.isSendTransaction w1.trace) signedTx
      = some err) :
    Transfer c w dest amount = ((EmptyHash, some err), w1.emit (.sendTransaction signedTx))
      ∧ signAndSendTxWithValue c fuel w [] amount dest
        = some ((c.lib.txHash signedTx, some err), w1.emit (.sendTransaction signedTx)) := by
  constructor
  · simp only [Transfer, hbuild, SendTx, hsend]
  · simp only [signAndSendTxWithValue, hbuild, SendTx, hsend]

/-- C5: on the sample peer rejecting the submission with "nonce too low",
the build succeeds with a signed transaction of hash 8, and `Transfer` returns
the error with the empty hash 0, not with 8; `signAndSendTxWithValue`, on the
same transaction, returns the error with the hash 8. -/
theorem C5_Transfer_returns_empty_hash_on_rejection :
    newSignedTx (sampleAccount (.ok 21000) (some "nonce too low") (.ok sampleReceipt))
        ⟨7, []⟩ 2 1000 []
        = (.ok ⟨⟨7, some 2, 1000, 21000, 1, []⟩, [1]⟩,
            ⟨8, [.suggestGasPrice, .estimateGas ⟨1, some 2, 0, 1, 1000, []⟩]⟩)
      ∧ sampleLib.txHash ⟨⟨7, some 2, 1000, 21000, 1, []⟩, [1]⟩ = 8
      ∧ (Transfer (sampleAccount (.ok 21000) (some "nonce too low") (.ok sampleReceipt))
          ⟨7, []⟩ 2 1000).1 = (0, some "nonce too low")
      ∧ (signAndSendTxWithValue
          (sampleAccount (.ok 21000) (some "nonce too low") (.ok sampleReceipt)) 0
          ⟨7, []⟩ [] 1000 2).map Prod.fst = some (8, some "nonce too low") := by
  refine ⟨rfl, rfl, rfl, rfl⟩

/-- C7: whatever the peer and the signer answer, one call of `Transfer`
leaves the nonce counter one above its value before, in `uint64`: the state
change is that of its single call of `Nonce`, also when the gas-price query,
the estimation, the signing or the submission fails.  `SendTx`, `getReceipt`,
`dumpEventLog` and `waitTransaction` leave the counter as it is. -/
theorem C7_Transfer_consumes_one_nonce (c : Account) (w : World) (dest : Address)
    (amount : Int) (data : List Nat) (tx : Transaction) (hash : Hash) (fuel : Nat) :
    (Transfer c w dest amount).2.nonce = (w.nonce + 1) % uint64Mod
      ∧ (Transfer c w dest amount).2.nonce = (Nonce w).2.nonce
      ∧ (newUnsignedTx c w dest amount data).2.nonce = (Nonce w).2.nonce
      ∧ (newSignedTx c w dest amount data).2.nonce = (Nonce w).2.nonce
      ∧ (SendTx c w tx).2.nonce = w.nonce
      ∧ (getReceipt c w hash).2.nonce = w.nonce
      ∧ (dumpEventLog c w hash).2.nonce = w.nonce
      ∧ (waitTransaction c fuel w hash).map (fun r => r.2.nonce)
        = (waitTransaction c fuel w hash).map (fun _ => w.nonce) := by
  refine ⟨Transfer_nonce c w dest amount, Transfer_nonce c w dest amount,
    newUnsignedTx_nonce c w dest amount data, ?_, rfl, rfl, ?_, ?_⟩
  · rw [newSignedTx_snd]; exact newUnsignedTx_nonce c w dest amount data
  · obtain ⟨r, tail, hd, _, _⟩ := dumpEventLog_shape c w hash
    rw [hd]
  · cases h : waitTransaction c fuel w hash with
    | none => rfl
    | some res =>
      obtain ⟨r, w2⟩ := res
      have := (waitTransaction_frame c hash fuel w r w2 h).1
      simp [this]

/-- `Transfer` succeeds with a hash exactly when the gas-price query, the
estimation of the payload-free call, the signing of the transaction built
with the reserved nonce and the submission of the signed transaction all
succeed; the hash is then that of the signed transaction, the one recorded
as submitted. -/
theorem Transfer_ok_iff (c : Account) (w : World) (dest : Address) (amount : Int)
    (hash : Hash) (w1 : World) :
    Transfer c w dest amount = ((hash, none), w1)
      ↔ ∃ gasPrice gasLimit signedTx,
          c.peer.suggestGasPrice (calls Event.isSuggestGasPrice w.trace) = .ok gasPrice
            ∧ c.peer.estimateGas (calls Event.isEstimateGas w.trace)
                ⟨c.address, some dest, 0, gasPrice, amount, []⟩ = .ok gasLimit
            ∧ c.lib.signTx (NewTx ⟨w.nonce, some dest, amount, gasLimit, gasPrice, []⟩)
                c.signer c.pk = .ok signedTx
            ∧ c.peer.sendTransaction (calls Event.isSendTransaction w.trace) signedTx = none
            ∧ hash = c.lib.txHash signedTx
            ∧ w1 = ⟨(w.nonce + 1) % uint64Mod,
                w.trace ++ [.suggestGasPrice,
                  .estimateGas ⟨c.address, some dest, 0, gasPrice, amount, []⟩,
                  .sendTransaction signedTx]⟩ := by
  cases hp : c.peer.suggestGasPrice (calls Event.isSuggestGasPrice w.trace) with
  | error e =>
    have hu := newUnsignedTx_price_fails c w dest amount [] e hp
    constructor
    · intro h
      simp [Transfer, newSignedTx, hu] at h
    · rintro ⟨_, _, _, h, _⟩
      cases h
  | ok gasPrice =>
    cases he : c.peer.estimateGas (calls Event.isEstimateGas w.trace)
        ⟨c.address, some dest, 0, gasPrice, amount, []⟩ with
    | error e =>
      have hu := newUnsignedTx_estimate_fails c w dest amount [] gasPrice e hp he
      constructor
      · intro h
        simp [Transfer, newSignedTx, hu] at h
      · rintro ⟨gp, _, _, h1, h2, _⟩
        cases h1
        rw [he] at h2
        cases h2
    | ok gasLimit =>
      have hu := newUnsignedTx_built c w dest amount [] gasPrice gasLimit hp he
      cases hs : c.lib.signTx (NewTx ⟨w.nonce, some dest, amount, gasLimit, gasPrice, []⟩)
          c.signer c.pk with
      | error e =>
        constructor
        · intro h
          simp [Transfer, newSignedTx, hu, hs] at h
        · rintro ⟨gp, gl, _, h1, h2, h3, _⟩
          cases h1
          rw [he] at h2
          cases h2
          rw [hs] at h3
          cases h3
      | ok signedTx =>
        have hcount : calls Event.isSendTransaction
            (w.trace ++ [.suggestGasPrice,
              .estimateGas ⟨c.address, some dest, 0, gasPrice, amount, []⟩])
            = calls Event.isSendTransaction w.trace := by
          simp [calls_append, calls, Event.isSendTransaction]
        cases hd : c.peer.sendTransaction (calls Event.isSendTransaction w.trace) signedTx with
        | some e =>
          constructor
          · intro h
            simp [Transfer, newSignedTx, hu, hs, SendTx, hcount, hd] at h
          · rintro ⟨gp, gl, tx, h1, h2, h3, h4, _⟩
            cases h1
            rw [he] at h2
            cases h2
            rw [hs] at h3
            cases h3
            rw [hd] at h4
            cases h4
        | none =>
          have hT : Transfer c w dest amount
              = ((c.lib.txHash signedTx, none),
                  ⟨(w.nonce + 1) % uint64Mod,
                    w.trace ++ [.suggestGasPrice,
                      .estimateGas ⟨c.address, some dest, 0, gasPrice, amount, []⟩,
                      .sendTransaction signedTx]⟩) := by
            simp [Transfer, newSignedTx, hu, hs, SendTx, hcount, hd, World.emit]
          constructor
          · intro h
            rw [hT] at h
            simp only [Prod.mk.injEq] at h
            exact ⟨gasPrice, gasLimit, signedTx, rfl, he, hs, hd, h.1.1.symm, h.2.symm⟩
          · rintro ⟨gp, gl, tx, h1, h2, h3, h4, h5, h6⟩
            cases h1
            rw [he] at h2
            cases h2
            rw [hs] at h3
            cases h3
            rw [hT, h5, h6]

/-- How `TransferWithConfirm` is composed of `Transfer` and `waitTransaction`:
success exactly when both succeed, the first error otherwise, with the empty
hash; a return whenever the peer eventually reports the transaction not
pending; and one reserved nonce, one gas-price query, at most one estimation
and at most one submission in every run that returns. -/
theorem TransferWithConfirm_stages (c : Account) (fuel : Nat) (w : World)
    (dest : Address) (amount : Int) :
    (∀ hash w2,
        TransferWithConfirm c fuel w dest amount = some ((hash, none), w2)
          ↔ ∃ w1, Transfer c w dest amount = ((hash, none), w1)
              ∧ waitTransaction c fuel w1 hash = some (none, w2))
      ∧ (∀ h err w1,
          Transfer c w dest amount = ((h, some err), w1) →
          TransferWithConfirm c fuel w dest amount = some ((EmptyHash, some err), w1)
            ∧ calls Event.isSleep w1.trace = calls Event.isSleep w.trace
            ∧ calls Event.isTransactionByHash w1.trace
              = calls Event.isTransactionByHash w.trace
            ∧ calls Event.isGetTransactionReceipt w1.trace
              = calls Event.isGetTransactionReceipt w.trace)
      ∧ (∀ hash w1 err w2,
          Transfer c w dest amount = ((hash, none), w1) →
          waitTransaction c fuel w1 hash = some (some err, w2) →
          TransferWithConfirm c fuel w dest amount = some ((EmptyHash, some err), w2))
      ∧ (∀ hash w1 k,
          Transfer c w dest amount = ((hash, none), w1) →
          (∀ i, i < k →
            c.peer.transactionByHash (calls Event.isTransactionByHash w1.trace + i) hash
              ≠ .ok false) →
          c.peer.transactionByHash (calls Event.isTransactionByHash w1.trace + k) hash
            = .ok false →
          k + 1 ≤ fuel →
          ∃ r w2, TransferWithConfirm c fuel w dest amount = some (r, w2))
      ∧ (∀ r w2,
          TransferWithConfirm c fuel w dest amount = some (r, w2) →
          w2.nonce = (w.nonce + 1) % uint64Mod
            ∧ calls Event.isSuggestGasPrice w2.trace
              = calls Event.isSuggestGasPrice w.trace + 1
            ∧ calls Event.isEstimateGas w2.trace ≤ calls Event.isEstimateGas w.trace + 1
            ∧ calls Event.isSendTransaction w2.trace
              ≤ calls Event.isSendTransaction w.trace + 1) := by
  have hnonce := Transfer_nonce c w dest amount
  obtain ⟨added, htrace, hprice, hest, hsend, hsleep, hpoll, hfetch⟩ :=
    Transfer_trace c w dest amount
  rcases hT : Transfer c w dest amount with ⟨⟨h0, e0⟩, w0⟩
  rw [hT] at hnonce htrace
  dsimp only at hnonce htrace
  cases e0 with
  | some err0 =>
    have hTW : TransferWithConfirm c fuel w dest amount = some ((EmptyHash, some err0), w0) := by
      simp only [TransferWithConfirm, hT]
    refine ⟨?_, ?_, ?_, ?_, ?_⟩
    · intro hash w2
      rw [hTW]
      constructor
      · intro h; simp at h
      · rintro ⟨w1, h, _⟩; simp at h
    · intro h err w1 heq
      cases heq
      refine ⟨hTW, ?_, ?_, ?_⟩
      · rw [htrace, calls_append, hsleep]; rfl
      · rw [htrace, calls_append, hpoll]; rfl
      · rw [htrace, calls_append, hfetch]; rfl
    · intro hash w1 err w2 heq; simp at heq
    · intro hash w1 k heq; simp at heq
    · intro r w2 h
      rw [hTW] at h
      cases h
      refine ⟨hnonce, ?_, ?_, ?_⟩
      · rw [htrace, calls_append, hprice]
      · rw [htrace, calls_append]; omega
      · rw [htrace, calls_append]; omega
  | none =>
    have hTW : TransferWithConfirm c fuel w dest amount
        = match waitTransaction c fuel w0 h0 with
          | none => none
          | some (some err, w2) => some ((EmptyHash, some err), w2)
          | some (none, w2) => some ((h0, none), w2) := by
      simp only [TransferWithConfirm, hT]
    refine ⟨?_, ?_, ?_, ?_, ?_⟩
    · intro hash w2
      rw [hTW]
      constructor
      · intro h
        rcases hW : waitTransaction c fuel w0 h0 with _ | ⟨r, w3⟩
        · rw [hW] at h; simp at h
        · cases r with
          | some err => rw [hW] at h; simp at h
          | none =>
            rw [hW] at h
            simp only [Option.some.injEq, Prod.mk.injEq] at h
            obtain ⟨⟨rfl, _⟩, rfl⟩ := h
            exact ⟨w0, rfl, hW⟩
      · rintro ⟨w1, heq, hW⟩
        simp only [Prod.mk.injEq] at heq
        obtain ⟨⟨rfl, _⟩, rfl⟩ := heq
        rw [hW]
    · intro h err w1 heq; simp at heq
    · intro hash w1 err w2 heq hW
      simp only [Prod.mk.injEq] at heq
      obtain ⟨⟨rfl, _⟩, rfl⟩ := heq
      rw [hTW, hW]
    · intro hash w1 k heq hretry hdone hfuel
      simp only [Prod.mk.injEq] at heq
      obtain ⟨⟨rfl, _⟩, rfl⟩ := heq
      rw [hTW, waitTransaction_settles c w0 h0 k fuel hretry hdone hfuel]
      rcases dumpEventLog c
        (w0.emitAll (pollEvents c h0 (calls Event.isTransactionByHash w0.trace) k)) h0
        with ⟨r, w3⟩
      cases r with
      | some err => exact ⟨_, _, rfl⟩
      | none => exact ⟨_, _, rfl⟩
    · intro r w2 h
      rw [hTW] at h
      rcases hW : waitTransaction c fuel w0 h0 with _ | ⟨r3, w3⟩
      · rw [hW] at h; simp at h
      · obtain ⟨hn, added2, ht2, h1, h2, h3⟩ := waitTransaction_frame c h0 fuel w0 r3 w3 hW
        have hw : w2 = w3 := by
          rw [hW] at h
          cases r3 <;> simp at h <;> exact h.2.symm
        subst hw
        refine ⟨by rw [hn, hnonce], ?_, ?_, ?_⟩
        · rw [ht2, htrace, calls_append, calls_append, hprice, h1]
        · rw [ht2, htrace, calls_append, calls_append, h2]; omega
        · rw [ht2, htrace, calls_append, calls_append, h3]; omega

/-- C6: `TransferWithConfirm` succeeds with a hash exactly when `Transfer`
succeeds with that hash and `waitTransaction` on that hash then succeeds; if
`Transfer` fails it returns that error with the empty hash and makes no
sleep, poll or receipt fetch; if `waitTransaction` fails it returns that
error with the empty hash; when the peer eventually reports the transaction
not pending it does return; and whenever it returns it has reserved one
nonce, made one gas-price query, at most one estimation and at most one
submission.  Spelled out on the peer: it succeeds with `hash` exactly when
the gas-price query, the estimation, the signing of the transaction built
with the reserved nonce and the submission of the signed transaction succeed
and `waitTransaction` on the hash of that signed transaction succeeds, and
`hash` is the hash of that signed transaction; the signed transaction is the
only one submitted in the run, and the hash polled and whose receipt is
fetched is its hash. -/
theorem C6_TransferWithConfirm_composes (c : Account) (fuel : Nat) (w : World)
    (dest : Address) (amount : Int) :
    (∀ hash w2,
        TransferWithConfirm c fuel w dest amount = some ((hash, none), w2)
          ↔ ∃ w1, Transfer c w dest amount = ((hash, none), w1)
              ∧ waitTransaction c fuel w1 hash = some (none, w2))
      ∧ (∀ h err w1,
          Transfer c w dest amount = ((h, some err), w1) →
          TransferWithConfirm c fuel w dest amount = some ((EmptyHash, some err), w1)
            ∧ calls Event.isSleep w1.trace = calls Event.isSleep w.trace
            ∧ calls Event.isTransactionByHash w1.trace
              = calls Event.isTransactionByHash w.trace
            ∧ calls Event.isGetTransactionReceipt w1.trace
              = calls Event.isGetTransactionReceipt w.trace)
      ∧ (∀ hash w1 err w2,
          Transfer c w dest amount = ((hash, none), w1) →
          waitTransaction c fuel w1 hash = some (some err, w2) →
          TransferWithConfirm c fuel w dest amount = some ((EmptyHash, some err), w2))
      ∧ (∀ hash w1 k,
          Transfer c w dest amount = ((hash, none), w1) →
          (∀ i, i < k →
            c.peer.transactionByHash (calls Event.isTransactionByHash w1.trace + i) hash
              ≠ .ok false) →
          c.peer.transactionByHash (calls Event.isTransactionByHash w1.trace + k) hash
            = .ok false →
          k + 1 ≤ fuel →
          ∃ r w2, TransferWithConfirm c fuel w dest amount = some (r, w2))
      ∧ (∀ r w2,
          TransferWithConfirm c fuel w dest amount = some (r, w2) →
          w2.nonce = (w.nonce + 1) % uint64Mod
            ∧ calls Event.isSuggestGasPrice w2.trace
              = calls Event.isSuggestGasPrice w.trace + 1
            ∧ calls Event.isEstimateGas w2.trace ≤ calls Event.isEstimateGas w.trace + 1
            ∧ calls Event.isSendTransaction w2.trace
              ≤ calls Event.isSendTransaction w.trace + 1)
      ∧ (∀ hash w2,
          TransferWithConfirm c fuel w dest amount = some ((hash, none), w2)
            ↔ ∃ gasPrice gasLimit signedTx,
                c.peer.suggestGasPrice (calls Event.isSuggestGasPrice w.trace) = .ok gasPrice
                  ∧ c.peer.estimateGas (calls Event.isEstimateGas w.trace)
                      ⟨c.address, some dest, 0, gasPrice, amount, []⟩ = .ok gasLimit
                  ∧ c.lib.signTx
                      (NewTx ⟨w.nonce, some dest, amount, gasLimit, gasPrice, []⟩)
                      c.signer c.pk = .ok signedTx
                  ∧ c.peer.sendTransaction (calls Event.isSendTransaction w.trace) signedTx
                      = none
                  ∧ hash = c.lib.txHash signedTx
                  ∧ waitTransaction c fuel
                      ⟨(w.nonce + 1) % uint64Mod,
                        w.trace ++ [.suggestGasPrice,
                          .estimateGas ⟨c.address, some dest, 0, gasPrice, amount, []⟩,
                          .sendTransaction signedTx]⟩
                      (c.lib.txHash signedTx) = some (none, w2))
      ∧ (∀ hash w2,
          TransferWithConfirm c fuel w dest amount = some ((hash, none), w2) →
          ∃ gasPrice gasLimit signedTx tail,
            c.lib.signTx (NewTx ⟨w.nonce, some dest, amount, gasLimit, gasPrice, []⟩)
                c.signer c.pk = .ok signedTx
              ∧ hash = c.lib.txHash signedTx
              ∧ w2.trace = w.trace ++ [.suggestGasPrice,
                  .estimateGas ⟨c.address, some dest, 0, gasPrice, amount, []⟩,
                  .sendTransaction signedTx] ++ tail
              ∧ calls Event.isSendTransaction tail = 0
              ∧ calls Event.isSuggestGasPrice tail = 0
              ∧ calls Event.isEstimateGas tail = 0) := by
  obtain ⟨h1, h2, h3, h4, h5⟩ := TransferWithConfirm_stages c fuel w dest amount
  have h6 : ∀ hash w2,
      TransferWithConfirm c fuel w dest amount = some ((hash, none), w2)
        ↔ ∃ gasPrice gasLimit signedTx,
            c.peer.suggestGasPrice (calls Event.isSuggestGasPrice w.trace) = .ok gasPrice
              ∧ c.peer.estimateGas (calls Event.isEstimateGas w.trace)
                  ⟨c.address, some dest, 0, gasPrice, amount, []⟩ = .ok gasLimit
              ∧ c.lib.signTx
                  (NewTx ⟨w.nonce, some dest, amount, gasLimit, gasPrice, []⟩)
                  c.signer c.pk = .ok signedTx
              ∧ c.peer.sendTransaction (calls Event.isSendTransaction w.trace) signedTx
                  = none
              ∧ hash = c.lib.txHash signedTx
              ∧ waitTransaction c fuel
                  ⟨(w.nonce + 1) % uint64Mod,
                    w.trace ++ [.suggestGasPrice,
                      .estimateGas ⟨c.address, some dest, 0, gasPrice, amount, []⟩,
                      .sendTransaction signedTx]⟩
                  (c.lib.txHash signedTx) = some (none, w2) := by
    intro hash w2
    rw [h1 hash w2]
    constructor
    · rintro ⟨w1, hT, hW⟩
      obtain ⟨gp, gl, tx, a1, a2, a3, a4, a5, a6⟩ :=
        (Transfer_ok_iff c w dest amount hash w1).mp hT
      subst a5 a6
      exact ⟨gp, gl, tx, a1, a2, a3, a4, rfl, hW⟩
    · rintro ⟨gp, gl, tx, a1, a2, a3, a4, a5, hW⟩
      subst a5
      exact ⟨_, (Transfer_ok_iff c w dest amount _ _).mpr
        ⟨gp, gl, tx, a1, a2, a3, a4, rfl, rfl⟩, hW⟩
  refine ⟨h1, h2, h3, h4, h5, h6, ?_⟩
  intro hash w2 h
  obtain ⟨gp, gl, tx, _, _, a3, _, a5, hW⟩ := (h6 hash w2).mp h
  obtain ⟨_, tail, ht, t1, t2, t3⟩ := waitTransaction_frame c _ fuel _ none w2 hW
  exact ⟨gp, gl, tx, tail, a3, a5, ht, t3, t1, t2⟩

/-- C6 on the second sample peer, where signing shows in the hash: the
transfer of value 100 is built with nonce 7, signed, submitted, confirmed at
the third poll with a receipt of status 1, and the hash returned is 2007,
that of the signed transaction submitted (the unsigned one has hash 7). -/
theorem C6_TransferWithConfirm_composes_witness :
    TransferWithConfirm (strictAccount none (.ok sampleReceipt)) 3 ⟨7, []⟩ 2 100
        = some ((2007, none),
            ⟨8, [.suggestGasPrice, .estimateGas ⟨1, some 2, 0, 1, 100, []⟩,
                 .sendTransaction ⟨⟨7, some 2, 100, 21000, 1, []⟩, [27, 1]⟩,
                 .sleep 1, .transactionByHash 2007, .log (.pollFailed "not found"),
                 .sleep 1, .transactionByHash 2007,
                 .sleep 1, .transactionByHash 2007,
                 .getTransactionReceipt "2007",
                 .log (.txHeight "2007" 5), .log (.eventAddress 9), .log (.eventData [1]),
                 .log (.eventTopic 0 3), .log (.eventTopic 1 4)]⟩)
      ∧ (∃ gasPrice gasLimit signedTx tail,
          strictLib.signTx (NewTx ⟨7, some 2, 100, gasLimit, gasPrice, []⟩) 60801 42
              = .ok signedTx
            ∧ 2007 = strictLib.txHash signedTx
            ∧ [.suggestGasPrice, .estimateGas ⟨1, some 2, 0, 1, 100, []⟩,
                 .sendTransaction ⟨⟨7, some 2, 100, 21000, 1, []⟩, [27, 1]⟩,
                 .sleep 1, .transactionByHash 2007, .log (.pollFailed "not found"),
                 .sleep 1, .transactionByHash 2007,
                 .sleep 1, .transactionByHash 2007,
                 .getTransactionReceipt "2007",
                 .log (.txHeight "2007" 5), .log (.eventAddress 9), .log (.eventData [1]),
                 .log (.eventTopic 0 3), .log (.eventTopic 1 4)]
              = [] ++ [.suggestGasPrice, .estimateGas ⟨1, some 2, 0, gasPrice, 100, []⟩,
                  .sendTransaction signedTx] ++ tail
            ∧ calls Event.isSendTransaction tail = 0
            ∧ calls Event.isSuggestGasPrice tail = 0
            ∧ calls Event.isEstimateGas tail = 0)
      ∧ strictLib.txHash (NewTx ⟨7, some 2, 100, 21000, 1, []⟩) = 7 :=
  have h : TransferWithConfirm (strictAccount none (.ok sampleReceipt)) 3 ⟨7, []⟩ 2 100
      = some ((2007, none),
          ⟨8, [.suggestGasPrice, .estimateGas ⟨1, some 2, 0, 1, 100, []⟩,
               .sendTransaction ⟨⟨7, some 2, 100, 21000, 1, []⟩, [27, 1]⟩,
               .sleep 1, .transactionByHash 2007, .log (.pollFailed "not found"),
               .sleep 1, .transactionByHash 2007,
               .sleep 1, .transactionByHash 2007,
               .getTransactionReceipt "2007",
               .log (.txHeight "2007" 5), .log (.eventAddress 9), .log (.eventData [1]),
               .log (.eventTopic 0 3), .log (.eventTopic 1 4)]⟩) := rfl
  ⟨h, (C6_TransferWithConfirm_composes (strictAccount none (.ok sampleReceipt)) 3
      ⟨7, []⟩ 2 100).2.2.2.2.2.2 2007 _ h, rfl⟩

end Sdk
